import Mathlib

/-!
Verification of the tap-hubspot extraction engine (`tap_hubspot/__init__.py`).

The Python source is shallowly embedded: JSON-like values become the
inductive type `JVal`, Python dicts become insertion-ordered association
lists (`Props`), the singer checkpoint ("STATE") becomes `TapState`, and
each stateful routine becomes a pure function that threads the state
explicitly and records its externally visible actions (requests issued,
records yielded, checkpoints persisted) as an event trace.
-/

namespace TapHubspot

/-- JSON-like values flowing through the tap: `null`, numbers, booleans,
strings, arrays and objects (Python dicts, modelled as ordered key/value
lists). -/
inductive JVal where
  | null : JVal
  | num (n : Int) : JVal
  | bool (b : Bool) : JVal
  | str (s : String) : JVal
  | list (xs : List JVal) : JVal
  | dict (kvs : List (String × JVal)) : JVal

mutual

/-- Structural equality of values (Python's `==` on JSON-like data). -/
def JVal.beq : JVal → JVal → Bool
  | .null, .null => true
  | .num a, .num b => a == b
  | .bool a, .bool b => a == b
  | .str a, .str b => a == b
  | .list xs, .list ys => JVal.beqList xs ys
  | .dict a, .dict b => JVal.beqKvs a b
  | _, _ => false

/-- Elementwise `JVal.beq` on lists. -/
def JVal.beqList : List JVal → List JVal → Bool
  | [], [] => true
  | x :: xs, y :: ys => JVal.beq x y && JVal.beqList xs ys
  | _, _ => false

/-- Pairwise `JVal.beq` on dict entries. -/
def JVal.beqKvs : List (String × JVal) → List (String × JVal) → Bool
  | [], [] => true
  | (k, v) :: tl, (k', v') :: tl' => k == k' && JVal.beq v v' && JVal.beqKvs tl tl'
  | _, _ => false

end

/-- A Python dict with string keys: an insertion-ordered association list. -/
abbrev Props := List (String × JVal)

/-- `d.get(k)`: first binding of `k`, if any. -/
def pget? : Props → String → Option JVal
  | [], _ => none
  | (k', v') :: tl, k => if k' = k then some v' else pget? tl k

/-- `d.get(k, default)`. -/
def pgetD (d : Props) (k : String) (dflt : JVal) : JVal :=
  (pget? d k).getD dflt

/-- `d[k] = v`: replace the binding in place if present, else append. -/
def pset : Props → String → JVal → Props
  | [], k, v => [(k, v)]
  | (k', v') :: tl, k, v => if k' = k then (k, v) :: tl else (k', v') :: pset tl k v

/-- `d.pop(k, None)`: drop every binding of `k`. -/
def perase (d : Props) (k : String) : Props :=
  d.filter (fun kv => !(kv.1 == k))

/-- `d.update(e)` (also `{**d, **e}`): assign every binding of `e` into `d`
in order. -/
def pupdate (d e : Props) : Props :=
  e.foldl (fun acc kv => pset acc kv.1 kv.2) d

/-- Python truthiness of a `JVal` (`bool(x)`). -/
def truthy : JVal → Bool
  | .null => false
  | .num n => n != 0
  | .bool b => b
  | .str s => s != ""
  | .list xs => !xs.isEmpty
  | .dict kvs => !kvs.isEmpty

/-! ### NA normalization (`replace_na`, source lines 121-136)

`replace_na` recursively copies dicts and lists, replacing any string whose
lowercased value is exactly `"n/a"` by `None`, and leaving every other leaf
unchanged. -/

mutual

/-- `replace_na` from the source: treat `"N/A"` (case-insensitively) as
`None` across arbitrarily nested dicts and lists. -/
def replace_na : JVal → JVal
  | .dict kvs => .dict (replaceNaKvs kvs)
  | .list xs => .list (replaceNaList xs)
  | .str s => if s.toLower = "n/a" then .null else .str s
  | v => v

/-- `replace_na` mapped over the elements of a list value. -/
def replaceNaList : List JVal → List JVal
  | [] => []
  | x :: xs => replace_na x :: replaceNaList xs

/-- `replace_na` mapped over the values of a dict. -/
def replaceNaKvs : List (String × JVal) → List (String × JVal)
  | [] => []
  | (k, v) :: tl => (k, replace_na v) :: replaceNaKvs tl

end

/-! ### The singer checkpoint ("STATE")

The singer library is an external collaborator (spec §6/§4.4); the tap
stores per-stream bookmark values under
`state["bookmarks"][stream][key]` and the mid-pagination cursor under
`state["bookmarks"][stream]["offset"]` (a dict of offset targets).
`clear_offset` empties that dict, so "offset cleared/absent" is the empty
dict. -/

/-- The persisted checkpoint: per-stream bookmark values, per-stream
in-flight pagination offsets, and the `currently_syncing` pointer. -/
structure TapState where
  bookmarks : List (String × Props) := []
  offsets : List (String × Props) := []
  currentlySyncing : Option String := none

/-- Lookup in a per-stream table, defaulting to the empty dict. -/
def lookupStream : List (String × Props) → String → Props
  | [], _ => []
  | (s, d) :: tl, stream => if s = stream then d else lookupStream tl stream

/-- Write a stream's entry in a per-stream table. -/
def setStream : List (String × Props) → String → Props → List (String × Props)
  | [], stream, d => [(stream, d)]
  | (s, d') :: tl, stream, d =>
    if s = stream then (stream, d) :: tl else (s, d') :: setStream tl stream d

/-- `singer.get_offset(state, stream)`: the in-flight cursor dict (empty =
absent). -/
def getOffset (st : TapState) (stream : String) : Props :=
  lookupStream st.offsets stream

/-- `singer.set_offset(state, stream, key, value)`. -/
def setOffset (st : TapState) (stream k : String) (v : JVal) : TapState :=
  { st with offsets := setStream st.offsets stream (pset (getOffset st stream) k v) }

/-- `singer.clear_offset(state, stream)`. -/
def clearOffset (st : TapState) (stream : String) : TapState :=
  { st with offsets := setStream st.offsets stream [] }

/-- `singer.get_bookmark(state, stream, key)`. -/
def getBookmark (st : TapState) (stream k : String) : Option JVal :=
  pget? (lookupStream st.bookmarks stream) k

/-- `singer.write_bookmark(state, stream, key, value)`. -/
def writeBookmark (st : TapState) (stream k : String) (v : JVal) : TapState :=
  { st with bookmarks := setStream st.bookmarks stream (pset (lookupStream st.bookmarks stream) k v) }

/-! ### The generic pagination loop (`gen_request`, source lines 703-748)

`gen_request(STATE, tap_stream_id, url, params, path, more_key,
offset_keys, offset_targets, ...)` drives the cursor pagination.  Pages
are modelled as the decoded response bodies the server would return, in
order; the externally visible actions of one invocation are recorded as an
event trace.  The optional `process_data` hook is the identity for the
streams studied here and pages are taken post-hook; the `v3_fields`
enrichment is modelled separately (`merge_responses`). -/

/-- The per-stream pagination contract (spec's CursorSpec): result path,
"has more" key and the offset key/target mapping. -/
structure CursorSpec where
  path : String
  more_key : String
  offset_keys : List String
  offset_targets : List String

/-- One decoded HTTP response body. -/
structure Page where
  data : Props

/-- Externally visible actions of a pagination run: a page request with
its query parameters, the response received, a yielded record, and a
`singer.write_state` checkpoint persist. -/
inductive Ev where
  | request (p : Props) : Ev
  | response (d : Props) : Ev
  | yieldRec (v : JVal) : Ev
  | persist (st : TapState) : Ev

/-- The outcome of one `gen_request` call. `ok` is true when the loop
exited normally (no missing result path, no configuration error, and the
scripted page list was not exhausted mid-loop). -/
structure GenOut where
  events : List Ev
  finalState : TapState
  finalParams : Props
  ok : Bool

/-- Source lines 732-736: after yielding a page, stop the loop when the
"has more" value is absent/falsy, or when the value already present in
`params` under the more key equals the response's more-key value. -/
def stopsAfter (cfg : CursorSpec) (params d : Props) : Bool :=
  !(truthy (pgetD d cfg.more_key (.bool false))) ||
    (match pget? params cfg.more_key with
     | some v => JVal.beq v (pgetD d cfg.more_key (.bool false))
     | none => false)

/-- Source lines 739-742: for each `(key, target)` pair with `key` present
in the response, write the cursor value into the outgoing `params` and
into the checkpoint offset. -/
def advance (cfg : CursorSpec) (stream : String) (d : Props) :
    Props × TapState → Props × TapState :=
  fun pr =>
    (cfg.offset_keys.zip cfg.offset_targets).foldl
      (fun pr kt =>
        match pget? d kt.1 with
        | some v => (pset pr.1 kt.2 v, setOffset pr.2 stream kt.2 v)
        | none => pr)
      pr

/-- The cursor assignments a response `d` induces (the offset dict that
`advance` leaves in the checkpoint after a `clear_offset`). -/
def cursorFrom (cfg : CursorSpec) (d : Props) : Props :=
  (cfg.offset_keys.zip cfg.offset_targets).foldl
    (fun acc kt =>
      match pget? d kt.1 with
      | some v => pset acc kt.2 v
      | none => acc)
    []

/-- The pagination loop body (the `while True` of `gen_request`). -/
def genLoop (cfg : CursorSpec) (stream : String) :
    List Page → Props → TapState → GenOut
  | [], params, st =>
    { events := [], finalState := st, finalParams := params, ok := false }
  | pg :: rest, params, st =>
    match pget? pg.data cfg.path with
    | some (.list rows) =>
      let evs := Ev.request params :: Ev.response pg.data :: rows.map Ev.yieldRec
      if stopsAfter cfg params pg.data then
        let st' := clearOffset st stream
        { events := evs ++ [Ev.persist st'], finalState := st',
          finalParams := params, ok := true }
      else
        let st₁ := clearOffset st stream
        let pr := advance cfg stream pg.data (params, st₁)
        let out := genLoop cfg stream rest pr.1 pr.2
        { out with events := evs ++ Ev.persist pr.2 :: out.events }
    | _ =>
      { events := [Ev.request params, Ev.response pg.data],
        finalState := st, finalParams := params, ok := false }

/-- Source lines 707-708: seed the first request's parameters from a
persisted mid-pagination offset, when one exists. -/
def seedParams (st : TapState) (stream : String) (params : Props) : Props :=
  if (getOffset st stream).isEmpty then params else pupdate params (getOffset st stream)

/-- `gen_request`: arity check, offset seeding, then the pagination loop. -/
def gen_request (cfg : CursorSpec) (stream : String) (pages : List Page)
    (params : Props) (st : TapState) : GenOut :=
  if cfg.offset_keys.length ≠ cfg.offset_targets.length then
    { events := [], finalState := st, finalParams := params, ok := false }
  else
    genLoop cfg stream pages (seedParams st stream params) st

/-- Is this event a yielded record? -/
def Ev.isYield : Ev → Bool
  | .yieldRec _ => true
  | _ => false

/-- Is this event a page request? -/
def Ev.isRequest : Ev → Bool
  | .request _ => true
  | _ => false

/-- The request/response/persist skeleton of a trace (yields dropped). -/
def coreEvents (evs : List Ev) : List Ev :=
  evs.filter (fun e => !e.isYield)

/-- How many page requests a run issued. -/
def requestCount (o : GenOut) : Nat :=
  o.events.countP (fun e => e.isRequest)

/-- Every offset entry the checkpoint holds for `stream` also appears,
with the same value, in the query parameters `p`. -/
def offsetsIn (stream : String) (ts : TapState) (p : Props) : Prop :=
  ∀ k v, pget? (getOffset ts stream) k = some v → pget? p k = some v

/-- Legal adjacencies in the request/response/persist skeleton of a
pagination run: a response follows its request; a persist after a
response holds either a cleared offset (loop exit) or exactly the cursor
values that response induced; a request other than the first directly
follows a persist whose recorded offsets are all present in the request's
parameters.  All other adjacencies are illegal. -/
def coreStep (cfg : CursorSpec) (stream : String) : Ev → Ev → Prop
  | .request _, .response _ => True
  | .response d, .persist ts =>
      getOffset ts stream = [] ∨ getOffset ts stream = cursorFrom cfg d
  | .persist ts, .request p => offsetsIn stream ts p
  | _, _ => False

/-! ### The loop's stop condition (claim C7)

The code (source lines 732-736) breaks when the more-key value is
absent/falsy, or when `more_key in params and params[more_key] ==
data.get(more_key, False)` — it compares the response's *more-key* value
against `params`, not the next *offset* value.  `claimStops` renders the
claim's own wording ("the next offset value is identical to the value
already present in the outgoing request parameters") for comparison. -/

/-- The stop condition as the claim words it: the "has more" signal is
absent or false, or the next offset value (the response's value under an
offset key) is identical to the value already present in the outgoing
parameters under the corresponding target. -/
def claimStops (cfg : CursorSpec) (params d : Props) : Bool :=
  !(truthy (pgetD d cfg.more_key (.bool false))) ||
    ((cfg.offset_keys.zip cfg.offset_targets).any (fun kt =>
      match pget? d kt.1, pget? params kt.2 with
      | some a, some b => JVal.beq a b
      | _, _ => false))

/-- The deals pagination contract (source line 998). -/
def dealsCfg : CursorSpec := ⟨"deals", "hasMore", ["offset"], ["offset"]⟩

/-- A deals page that signals more data but repeats the offset already in
the outgoing parameters. -/
def stalledPage : Page :=
  ⟨[("deals", .list []), ("hasMore", .bool true), ("offset", .num 5)]⟩

/-- A final deals page (no more data). -/
def lastDealsPage : Page := ⟨[("deals", .list []), ("hasMore", .bool false)]⟩

/-- Outgoing parameters already holding offset 5. -/
def stalledParams : Props := [("offset", .num 5)]

/-! ### The shared `default_contact_params` dict (claim C10)

`gen_request` assigns cursor values into the very `params` dict its caller
passed (`params[target] = data[key]`), so a module-level dict shared
between stream invocations keeps the cursor after a run.  In this pure
embedding the mutation is modelled by the run's `finalParams`: the value
the shared module-level binding holds after the call.
`sync_contacts` (source line 784) passes `default_contact_params` and
never removes the cursor; `sync_contacts_list_memberships` (source lines
824 and 845) passes the same dict and pops `"vidOffset"` after its loop. -/

/-- The contacts pagination contract (source lines 784 and 824). -/
def contactsCfg : CursorSpec := ⟨"contacts", "has-more", ["vid-offset"], ["vidOffset"]⟩

/-- Module-level shared dict (source lines 762-766). -/
def default_contact_params : Props :=
  [("showListMemberships", .bool true), ("includeVersion", .bool true), ("count", .num 100)]

/-- What `sync_contacts` leaves in the shared params dict: the dict as
`gen_request` mutated it. -/
def sync_contacts_sharedParams (shared : Props) (pages : List Page) (st : TapState) : Props :=
  (gen_request contactsCfg "contacts" pages shared st).finalParams

/-- What `sync_contacts_list_memberships` leaves in the shared params
dict: the dict as `gen_request` mutated it, with `"vidOffset"` popped
(source line 845). -/
def sync_contacts_list_memberships_sharedParams (shared : Props) (pages : List Page)
    (st : TapState) : Props :=
  perase (gen_request contactsCfg "contacts_list_memberships" pages shared st).finalParams
    "vidOffset"

/-- A contacts page that signals more data with `vid-offset` cursor `v`. -/
def contactsPage (v : JVal) : Page :=
  ⟨[("contacts", .list []), ("has-more", .bool true), ("vid-offset", v)]⟩

/-- A final contacts page. -/
def contactsLastPage : Page := ⟨[("contacts", .list []), ("has-more", .bool false)]⟩

/-! ### The request executor (`request`, source lines 299-312 and 345-367)

`request` is wrapped in `backoff.on_exception(backoff.constant, ...,
max_tries=5, jitter=None, giveup=giveup, on_giveup=on_giveup,
interval=10)`.  One attempt: a 403 raises `SourceUnavailableException`
(not a `RequestException`, so never retried); any other 4xx/5xx raises
`HTTPError`; transport errors raise `RequestException` without a
response.  `backoff` then consults `giveup`; it retries after a constant
10-second sleep until `max_tries` attempts have been used, at which point
`on_giveup` raises the escalated exception carrying the attempt count,
url and params.  The scripted `List HResp` plays the server's behaviour,
one entry per attempt. -/

/-- One raw server behaviour for one attempt: an HTTP status, or a
transport-level failure (a `RequestException` with no response). -/
inductive HResp where
  | status (code : Nat) : HResp
  | transport : HResp

/-- `giveup` (source lines 299-302): stop retrying exactly when the
exception carries a response whose status is a 4xx other than 429. -/
def giveup : Option Nat → Bool
  | some code => decide (400 ≤ code) && decide (code < 500) && !(code == 429)
  | none => false

/-- How one attempt resolves before the backoff policy reacts. -/
inductive AttemptOut where
  | success : AttemptOut
  | sourceUnavail : AttemptOut
  | permanent : AttemptOut
  | transient : AttemptOut
deriving DecidableEq

/-- Classify one attempt: 403 becomes the distinguished source-unavailable
error before `raise_for_status` runs; other 4xx/5xx raise `HTTPError`,
split by `giveup` into permanent (other 4xx) and transient (429, 5xx);
transport errors have no response, so `giveup` is false and they are
transient; everything else succeeds. -/
def classify : HResp → AttemptOut
  | .transport => .transient
  | .status code =>
    if code = 403 then .sourceUnavail
    else if 400 ≤ code ∧ code < 600 then
      (if giveup (some code) then .permanent else .transient)
    else .success

/-- `max_tries=5`. -/
def MAX_TRIES : Nat := 5

/-- How one `request(url, params)` call resolves: success or
source-unavailable after some number of attempts, or the escalated
`on_giveup` failure carrying the attempt count, url and params.  Each
result also carries the list of backoff sleeps performed, in seconds.
`serverHung` is a model artifact: the scripted behaviour ran out. -/
inductive ReqResult where
  | ok (attempts : Nat) (sleeps : List Nat) : ReqResult
  | sourceUnavailable (attempts : Nat) (sleeps : List Nat) : ReqResult
  | giveUp (tries : Nat) (url : String) (params : Props) (sleeps : List Nat) : ReqResult
  | serverHung : ReqResult

/-- The retry loop `backoff` drives around one logical request. -/
def requestGo (url : String) (params : Props) : List HResp → Nat → List Nat → ReqResult
  | [], _, _ => .serverHung
  | r :: rest, tries, sleeps =>
    match classify r with
    | .success => .ok (tries + 1) sleeps
    | .sourceUnavail => .sourceUnavailable (tries + 1) sleeps
    | .permanent => .giveUp (tries + 1) url params sleeps
    | .transient =>
      if tries + 1 = MAX_TRIES then .giveUp (tries + 1) url params sleeps
      else requestGo url params rest (tries + 1) (sleeps ++ [10])

/-- `request(url, params)` under the backoff decorator, against a scripted
server. -/
def request (url : String) (params : Props) (responses : List HResp) : ReqResult :=
  requestGo url params responses 0 []

/-! ### The stream orchestrator (`do_sync`, source lines 1471-1496)

`do_sync` walks the selected streams in order; around each stream's sync
it catches only `SourceUnavailableException`, logs the message with the
access token replaced by ten asterisks, and moves on; any other exception
propagates and aborts the run.  A stream's sync is scripted by its
outcome. -/

/-- How one stream's sync routine resolves, as scripted by the test
double. -/
inductive SyncOutcome where
  | ok : SyncOutcome
  | sourceUnavailable (msg : String) : SyncOutcome
  | failed (msg : String) : SyncOutcome

/-- The orchestrator's observable result. -/
structure OrchOut where
  processed : List String
  logged : List String
  completed : Bool
  error : Option String

/-- Source line 1490: replace the access token in the message by ten
asterisks before logging. -/
def redact (token msg : String) : String :=
  msg.replace token (String.mk (List.replicate 10 '*'))

/-- `do_sync` over the selected streams: invoke each sync in order,
catching only the source-unavailable condition (log redacted, continue);
any other failure propagates and aborts the run. -/
def do_sync (token : String) : List (String × SyncOutcome) → OrchOut
  | [] => { processed := [], logged := [], completed := true, error := none }
  | (id, outcome) :: rest =>
    match outcome with
    | .ok =>
      let r := do_sync token rest
      { r with processed := id :: r.processed }
    | .sourceUnavailable msg =>
      let r := do_sync token rest
      { r with processed := id :: r.processed, logged := redact token msg :: r.logged }
    | .failed msg =>
      { processed := [id], logged := [], completed := false, error := some msg }

/-! ### Bookmarks and the race-safe clamp (source lines 138-154, 885-939,
949-1018, 1357-1404)

The bookmark logic is about timestamps, so it is modelled over `Nat`
instants against a projection of the checkpoint holding just the stream's
committed bookmark and its persisted `current_sync_start`. Rows enter as
their derived modified-times: for companies/deals a row may lack both
`hs_lastmodifieddate` and `createdate` (`Option Nat`, `none` leaves the
running maximum untouched); engagement rows always carry `lastUpdated`. -/

/-- The per-stream slice of the checkpoint that the bookmark policies
read and write. -/
structure BookmarkState where
  bookmark : Option Nat := none
  currentSyncStart : Option Nat := none
deriving DecidableEq

/-- `get_start` (source lines 138-142): the committed bookmark, or the
configured start date when none has been committed yet. -/
def get_start (st : BookmarkState) (startDate : Nat) : Nat :=
  match st.bookmark with
  | none => startDate
  | some b => b

/-- The running maximum over rows that may lack a modified time
(`if modified_time and modified_time >= max_bk_value`). -/
def foldMaxOpt (start : Nat) (times : List (Option Nat)) : Nat :=
  times.foldl
    (fun m t? =>
      match t? with
      | some t => if m ≤ t then t else m
      | none => m)
    start

/-- The running maximum over always-present times. -/
def foldMax (start : Nat) (times : List Nat) : Nat :=
  times.foldl (fun m t => if m ≤ t then t else m) start

/-- The trace of one clamped full-table sync: every `write_state` call in
order, and the final checkpoint. -/
structure ClampRun where
  persists : List BookmarkState
  final : BookmarkState

/-- `sync_companies` (source lines 885-939), projected to its bookmark
logic: reuse a persisted `current_sync_start` or capture `now()`, persist
it before scanning, track the running maximum of the rows' modified
times, then commit `min(max_bk_value, current_sync_start)` and reset
`current_sync_start` to null. -/
def sync_companies_clamp (now startDate : Nat) (st : BookmarkState)
    (times : List (Option Nat)) : ClampRun :=
  let start := get_start st startDate
  let css := st.currentSyncStart.getD now
  let st1 : BookmarkState := { st with currentSyncStart := some css }
  let maxBk := foldMaxOpt start times
  let newBookmark := min maxBk css
  let st2 : BookmarkState := { st1 with bookmark := some newBookmark, currentSyncStart := none }
  { persists := [st1, st2], final := st2 }

/-- The running maximum `sync_engagements` keeps: only rows at or after
`start` are delivered, and only delivered rows update the maximum. -/
def engagementsMax (start : Nat) (times : List Nat) : Nat :=
  times.foldl
    (fun m t => if start ≤ t then (if m ≤ t then t else m) else m)
    start

/-- `sync_engagements` (source lines 1357-1404), projected to its
bookmark logic: like `sync_companies_clamp`, but it also re-persists the
start bookmark before the scan, and its running maximum is updated only
for delivered rows. -/
def sync_engagements_clamp (now startDate : Nat) (st : BookmarkState)
    (times : List Nat) : ClampRun :=
  let start := get_start st startDate
  let css := st.currentSyncStart.getD now
  let st1 : BookmarkState := { st with currentSyncStart := some css }
  let st1b : BookmarkState := { st1 with bookmark := some start }
  let maxBk := engagementsMax start times
  let newBookmark := min maxBk css
  let st2 : BookmarkState := { st1b with bookmark := some newBookmark, currentSyncStart := none }
  { persists := [st1, st1b, st2], final := st2 }

/-- `sync_deals` (source lines 949-1018), projected to its bookmark
logic: track the running maximum of the rows' modified times from the
`get_start` threshold and commit it unconditionally (no clamp). -/
def sync_deals_run (startDate : Nat) (st : BookmarkState)
    (times : List (Option Nat)) : BookmarkState :=
  { st with bookmark := some (foldMaxOpt (get_start st startDate) times) }

/-! ### The chunked time-window scanner (`sync_entity_chunked`, source
lines 1088-1157)

`now` is captured once before the loop (`now_ts`) and never re-evaluated;
the loop runs `while start_ts < now_ts`, requests the window
`[start_ts, start_ts + window_size)`, commits the window's *start* as the
new `startTimestamp` bookmark, then advances `start_ts = end_ts`.  Each
emitted triple is one window: its `startTimestamp` parameter, its
`endTimestamp` parameter, and the bookmark committed after the window
closes.  With `window_size = 0` the Python loop would never terminate;
the model's guard returns the empty trace there, and the theorems assume
a positive window size. -/

/-- The window loop of `sync_entity_chunked`: one triple
`(startTimestamp, endTimestamp, committed bookmark)` per window. -/
def chunkLoop (W now : Nat) (start : Nat) : List (Nat × Nat × Nat) :=
  if _h : start < now ∧ 0 < W then
    (start, start + W, start) :: chunkLoop W now (start + W)
  else []
termination_by now - start
decreasing_by
  simp_wf
  omega

/-! ### The deals cross-version merge (`merge_responses` and
`process_v3_deals_records`, source lines 420-443)

Legacy (v1) deal records carry an integer `dealId` and a `properties`
dict; v3 records carry a string `id` and a flat `properties` dict.
`process_v3_deals_records` keeps only the v3 fields whose name contains
one of the three configured prefixes and wraps each surviving value in a
`{"value": ...}` envelope; `merge_responses` overlays a v3 record's
properties into the legacy record whose `str(dealId)` equals the v3 `id`
(the source mutates `v1_data` in place; the model returns the updated
list). -/

/-- Python's `needle` prefix test on character lists. -/
def listIsPrefix : List Char → List Char → Bool
  | [], _ => true
  | _ :: _, [] => false
  | a :: as, b :: bs => a == b && listIsPrefix as bs

/-- `needle in hay` for character lists: a prefix of some suffix. -/
def listContainsSub (needle : List Char) : List Char → Bool
  | [] => listIsPrefix needle []
  | c :: tl => listIsPrefix needle (c :: tl) || listContainsSub needle tl

/-- Python's substring containment `needle in hay` on strings. -/
def strContains (hay needle : String) : Bool :=
  listContainsSub needle.toList hay.toList

/-- `V3_PREFIXES` (source line 58). -/
def V3_PREFIXES : List String := ["hs_date_entered", "hs_date_exited", "hs_time_in"]

/-- A legacy (v1) deal record: integer id plus a properties dict. -/
structure V1Deal where
  dealId : Int
  properties : Props

/-- A v3 deal record: string id plus a flat properties dict. -/
structure V3Deal where
  id : String
  properties : Props

/-- `process_v3_deals_records` (source lines 429-443): keep only fields
containing a configured v3 prefix; wrap each kept value in a
`{"value": original}` envelope. -/
def process_v3_deals_records (v3 : List V3Deal) : List V3Deal :=
  v3.map (fun r =>
    let kept := r.properties.filter
      (fun kv => V3_PREFIXES.any (fun pf => strContains kv.1 pf))
    { r with properties := kept.map (fun kv => (kv.1, JVal.dict [("value", kv.2)])) })

/-- `merge_responses` (source lines 420-427): for each v1 record, overlay
the properties of every v3 record whose string id equals `str(dealId)`. -/
def merge_responses (v1 : List V1Deal) (v3 : List V3Deal) : List V1Deal :=
  v1.map (fun r =>
    v3.foldl
      (fun acc v3r =>
        if toString r.dealId == v3r.id then
          { acc with properties := pupdate acc.properties v3r.properties }
        else acc)
      r)

/-- The concrete legacy page of the spec's merge example: IDs 10 and 11. -/
def v1DealTen : V1Deal := ⟨10, [("dealname", .str "A"), ("amount", .str "1")]⟩

/-- Legacy record 11 (no v3 match). -/
def v1DealEleven : V1Deal := ⟨11, [("dealname", .str "B")]⟩

/-- The v3 batch-read response for ID "10": one prefix-family field and
one field outside the family. -/
def v3DealTen : V3Deal :=
  ⟨"10", [("hs_date_entered_appointmentscheduled", .str "T1"), ("dealname", .str "X")]⟩

theorem pget_pset_self (d : Props) (k : String) (v : JVal) :
    pget? (pset d k v) k = some v := by
  induction d with
  | nil => simp [pset, pget?]
  | cons hd tl ih =>
    obtain ⟨k₀, v₀⟩ := hd
    by_cases h : k₀ = k
    · subst h
      simp [pset, pget?]
    · simp [pset, pget?, h, ih]

theorem pget_pset_ne (d : Props) (k k' : String) (v : JVal) (h : k' ≠ k) :
    pget? (pset d k v) k' = pget? d k' := by
  induction d with
  | nil => simp [pset, pget?, Ne.symm h]
  | cons hd tl ih =>
    obtain ⟨k₀, v₀⟩ := hd
    by_cases hh : k₀ = k
    · subst hh
      simp [pset, pget?, Ne.symm h]
    · simp only [pset, if_neg hh, pget?]
      by_cases hk' : k₀ = k'
      · simp [hk']
      · simp [hk', ih]

mutual

theorem replace_na_idem_aux : (v : JVal) → replace_na (replace_na v) = replace_na v
  | .null => rfl
  | .num _ => rfl
  | .bool _ => rfl
  | .str s => by
    by_cases h : s.toLower = "n/a"
    · simp [replace_na, h]
    · simp [replace_na, h]
  | .list xs => by
    simp [replace_na, replaceNaList_idem_aux xs]
  | .dict kvs => by
    simp [replace_na, replaceNaKvs_idem_aux kvs]

theorem replaceNaList_idem_aux :
    (xs : List JVal) → replaceNaList (replaceNaList xs) = replaceNaList xs
  | [] => rfl
  | x :: xs => by
    simp [replaceNaList, replace_na_idem_aux x, replaceNaList_idem_aux xs]

theorem replaceNaKvs_idem_aux :
    (kvs : List (String × JVal)) → replaceNaKvs (replaceNaKvs kvs) = replaceNaKvs kvs
  | [] => rfl
  | (k, v) :: tl => by
    simp [replaceNaKvs, replace_na_idem_aux v, replaceNaKvs_idem_aux tl]

end

/-- C9: NA normalization (`replace_na`) — which recursively replaces any
string whose lowercased value is exactly "n/a" with null across arbitrarily
nested mappings and sequences, leaving every other value unchanged — is
idempotent: for every nested structure `x`,
`replace_na (replace_na x) = replace_na x`. -/
theorem replace_na_idempotent (x : JVal) :
    replace_na (replace_na x) = replace_na x :=
  replace_na_idem_aux x

theorem lookup_setStream_self (l : List (String × Props)) (stream : String) (d : Props) :
    lookupStream (setStream l stream d) stream = d := by
  induction l with
  | nil => simp [setStream, lookupStream]
  | cons hd tl ih =>
    obtain ⟨s, d'⟩ := hd
    by_cases h : s = stream
    · subst h
      simp [setStream, lookupStream]
    · simp [setStream, lookupStream, h, ih]

theorem getOffset_setOffset (st : TapState) (stream k : String) (v : JVal) :
    getOffset (setOffset st stream k v) stream = pset (getOffset st stream) k v := by
  simp [getOffset, setOffset, lookup_setStream_self]

theorem getOffset_clearOffset (st : TapState) (stream : String) :
    getOffset (clearOffset st stream) stream = [] := by
  simp [getOffset, clearOffset, lookup_setStream_self]

theorem yields_filter_out (rows : List JVal) :
    (rows.map Ev.yieldRec).filter (fun e => !e.isYield) = [] := by
  induction rows with
  | nil => rfl
  | cons r rs ih => simp [Ev.isYield, ih]

theorem coreEvents_cons_req (p : Props) (l : List Ev) :
    coreEvents (Ev.request p :: l) = Ev.request p :: coreEvents l := by
  simp [coreEvents, Ev.isYield]

theorem coreEvents_cons_resp (d : Props) (l : List Ev) :
    coreEvents (Ev.response d :: l) = Ev.response d :: coreEvents l := by
  simp [coreEvents, Ev.isYield]

theorem coreEvents_cons_persist (ts : TapState) (l : List Ev) :
    coreEvents (Ev.persist ts :: l) = Ev.persist ts :: coreEvents l := by
  simp [coreEvents, Ev.isYield]

theorem coreEvents_yields_append (rows : List JVal) (l : List Ev) :
    coreEvents (rows.map Ev.yieldRec ++ l) = coreEvents l := by
  simp [coreEvents, List.filter_append, yields_filter_out]

theorem advance_offset (cfg : CursorSpec) (stream : String) (d : Props)
    (params : Props) (st : TapState) :
    getOffset (advance cfg stream d (params, st)).2 stream =
      (cfg.offset_keys.zip cfg.offset_targets).foldl
        (fun acc kt =>
          match pget? d kt.1 with
          | some v => pset acc kt.2 v
          | none => acc)
        (getOffset st stream) := by
  unfold advance
  generalize cfg.offset_keys.zip cfg.offset_targets = kts
  induction kts generalizing params st with
  | nil => rfl
  | cons kt tl ih =>
    simp only [List.foldl_cons]
    cases h : pget? d kt.1 with
    | none => simp only [h]; exact ih params st
    | some v =>
      simp only [h]
      rw [ih (pset params kt.2 v) (setOffset st stream kt.2 v), getOffset_setOffset]

theorem advance_offsetsIn (cfg : CursorSpec) (stream : String) (d : Props)
    (params : Props) (st : TapState) (h : offsetsIn stream st params) :
    offsetsIn stream (advance cfg stream d (params, st)).2
      (advance cfg stream d (params, st)).1 := by
  unfold advance
  generalize cfg.offset_keys.zip cfg.offset_targets = kts
  induction kts generalizing params st with
  | nil => exact h
  | cons kt tl ih =>
    simp only [List.foldl_cons]
    cases hd : pget? d kt.1 with
    | none => simp only [hd]; exact ih params st h
    | some v =>
      simp only [hd]
      refine ih (pset params kt.2 v) (setOffset st stream kt.2 v) ?_
      intro k w hw
      rw [getOffset_setOffset] at hw
      by_cases hk : k = kt.2
      · subst hk
        rw [pget_pset_self] at hw
        rw [pget_pset_self]
        exact hw
      · rw [pget_pset_ne _ _ _ _ hk] at hw
        rw [pget_pset_ne _ _ _ _ hk]
        exact h k w hw

theorem clearOffset_offsetsIn (stream : String) (st : TapState) (p : Props) :
    offsetsIn stream (clearOffset st stream) p := by
  intro k v hv
  rw [getOffset_clearOffset] at hv
  simp [pget?] at hv

theorem advance_offset_cursorFrom (cfg : CursorSpec) (stream : String) (d : Props)
    (params : Props) (st : TapState) :
    getOffset (advance cfg stream d (params, clearOffset st stream)).2 stream =
      cursorFrom cfg d := by
  rw [advance_offset, getOffset_clearOffset, cursorFrom]

theorem genLoop_core (cfg : CursorSpec) (stream : String) :
    ∀ (pages : List Page) (params : Props) (st : TapState),
    (genLoop cfg stream pages params st).ok = true →
    (∃ tail, coreEvents (genLoop cfg stream pages params st).events =
        Ev.request params :: tail)
    ∧ List.Chain' (coreStep cfg stream)
        (coreEvents (genLoop cfg stream pages params st).events)
    ∧ (coreEvents (genLoop cfg stream pages params st).events).getLast? =
        some (.persist (genLoop cfg stream pages params st).finalState)
    ∧ getOffset (genLoop cfg stream pages params st).finalState stream = [] := by
  intro pages
  induction pages with
  | nil => intro params st hok; simp [genLoop] at hok
  | cons pg rest ih =>
    intro params st hok
    match hpath : pget? pg.data cfg.path with
    | none =>
      rw [genLoop, hpath] at hok ⊢
      simp at hok
    | some (.null) | some (.num _) | some (.bool _) | some (.str _) | some (.dict _) =>
      rw [genLoop, hpath] at hok ⊢
      simp at hok
    | some (.list rows) =>
      rw [genLoop, hpath] at hok ⊢
      by_cases hstop : stopsAfter cfg params pg.data
      · simp only [hstop, if_pos, List.cons_append, List.nil_append] at hok ⊢
        rw [coreEvents_cons_req, coreEvents_cons_resp, coreEvents_yields_append,
          coreEvents_cons_persist]
        refine ⟨⟨_, rfl⟩, ?_, ?_, ?_⟩
        · refine List.chain'_cons.mpr ⟨trivial, ?_⟩
          refine List.chain'_cons.mpr ⟨Or.inl (getOffset_clearOffset st stream), ?_⟩
          simp [coreEvents, List.Chain']
        · simp [coreEvents]
        · exact getOffset_clearOffset st stream
      · simp only [hstop, if_neg, Bool.false_eq_true, not_false_eq_true,
          List.cons_append] at hok ⊢
        obtain ⟨⟨tail, htail⟩, hchain, hlast, hoff⟩ :=
          ih (advance cfg stream pg.data (params, clearOffset st stream)).1
            (advance cfg stream pg.data (params, clearOffset st stream)).2 hok
        rw [coreEvents_cons_req, coreEvents_cons_resp, coreEvents_yields_append,
          coreEvents_cons_persist, htail]
        refine ⟨⟨_, rfl⟩, ?_, ?_, hoff⟩
        · refine List.chain'_cons.mpr ⟨trivial, ?_⟩
          refine List.chain'_cons.mpr
            ⟨Or.inr (advance_offset_cursorFrom cfg stream pg.data params st), ?_⟩
          refine List.chain'_cons.mpr ⟨?_, ?_⟩
          · exact advance_offsetsIn cfg stream pg.data params (clearOffset st stream)
              (clearOffset_offsetsIn stream st params)
          · rw [← htail]; exact hchain
        · rw [← htail]
          rw [show Ev.request params :: Ev.response pg.data ::
              Ev.persist (advance cfg stream pg.data (params, clearOffset st stream)).2 ::
              coreEvents (genLoop cfg stream rest
                (advance cfg stream pg.data (params, clearOffset st stream)).1
                (advance cfg stream pg.data (params, clearOffset st stream)).2).events =
              [Ev.request params, Ev.response pg.data,
               Ev.persist (advance cfg stream pg.data (params, clearOffset st stream)).2] ++
              coreEvents (genLoop cfg stream rest
                (advance cfg stream pg.data (params, clearOffset st stream)).1
                (advance cfg stream pg.data (params, clearOffset st stream)).2).events
            from rfl]
          rw [htail, List.getLast?_append_cons, ← htail, hlast]

/-- C1: for every stream synced through the generic pagination loop
(`gen_request`): if a checkpoint offset exists for the stream the first
request's parameters are seeded from it (head of the trace is a request
with `seedParams`-seeded parameters); after each page that signals more
data the new cursor values are written into both the outgoing request
parameters and the checkpoint, and the checkpoint is persisted before the
next page request is issued (the `Chain'` clause: every later request is
immediately preceded by a persist holding exactly the cursor values the
response induced, all of which appear in that request's parameters); and
on normal loop exit the offset is cleared entirely from the checkpoint and
that cleared checkpoint is persisted as the final trace event. -/
theorem gen_request_checkpoint_protocol (cfg : CursorSpec) (stream : String)
    (pages : List Page) (params : Props) (st : TapState)
    (hok : (gen_request cfg stream pages params st).ok = true) :
    (coreEvents (gen_request cfg stream pages params st).events).head? =
      some (.request (seedParams st stream params))
    ∧ List.Chain' (coreStep cfg stream)
        (coreEvents (gen_request cfg stream pages params st).events)
    ∧ (coreEvents (gen_request cfg stream pages params st).events).getLast? =
        some (.persist (gen_request cfg stream pages params st).finalState)
    ∧ getOffset (gen_request cfg stream pages params st).finalState stream = [] := by
  by_cases harity : cfg.offset_keys.length ≠ cfg.offset_targets.length
  · rw [gen_request, if_pos harity] at hok
    simp at hok
  · rw [gen_request, if_neg harity] at hok ⊢
    obtain ⟨⟨tail, htail⟩, hchain, hlast, hoff⟩ :=
      genLoop_core cfg stream pages (seedParams st stream params) st hok
    exact ⟨by rw [htail]; rfl, hchain, hlast, hoff⟩

theorem countP_yields (rows : List JVal) :
    (rows.map Ev.yieldRec).countP (fun e => e.isRequest) = 0 := by
  induction rows with
  | nil => rfl
  | cons r rs ih => simp [Ev.isRequest, ih]

theorem genLoop_requestCount_cons (cfg : CursorSpec) (stream : String)
    (pg : Page) (rest : List Page) (params : Props) (st : TapState) (rows : List JVal)
    (hpath : pget? pg.data cfg.path = some (.list rows)) :
    (genLoop cfg stream (pg :: rest) params st).events.countP (fun e => e.isRequest) =
      if stopsAfter cfg params pg.data then 1
      else 1 + (genLoop cfg stream rest
          (advance cfg stream pg.data (params, clearOffset st stream)).1
          (advance cfg stream pg.data (params, clearOffset st stream)).2).events.countP
          (fun e => e.isRequest) := by
  rw [genLoop, hpath]
  by_cases hstop : stopsAfter cfg params pg.data
  · simp only [hstop, if_pos, List.cons_append, List.nil_append]
    simp only [List.countP_cons, List.countP_append, List.countP_nil]
    rw [countP_yields]
    simp [Ev.isRequest]
  · simp only [hstop, if_neg, Bool.false_eq_true, not_false_eq_true, List.cons_append]
    simp only [List.countP_cons, List.countP_append, List.countP_nil]
    rw [countP_yields]
    simp [Ev.isRequest]
    omega

theorem genLoop_req_pos (cfg : CursorSpec) (stream : String) :
    ∀ (pages : List Page) (params : Props) (st : TapState),
    (genLoop cfg stream pages params st).ok = true →
    1 ≤ (genLoop cfg stream pages params st).events.countP (fun e => e.isRequest) := by
  intro pages
  induction pages with
  | nil => intro params st hok; simp [genLoop] at hok
  | cons pg rest ih =>
    intro params st hok
    match hpath : pget? pg.data cfg.path with
    | none =>
      rw [genLoop, hpath] at hok; simp at hok
    | some (.null) | some (.num _) | some (.bool _) | some (.str _) | some (.dict _) =>
      rw [genLoop, hpath] at hok; simp at hok
    | some (.list rows) =>
      rw [genLoop, hpath]
      by_cases hstop : stopsAfter cfg params pg.data
      · simp [hstop, List.countP_cons, Ev.isRequest]
      · simp [hstop, List.countP_cons, Ev.isRequest]

/-- C7 counterexample: with the deals contract, a page that signals more
data (`hasMore = true`) while repeating exactly the offset value already
present in the outgoing parameters satisfies the claim's stated stop
condition, yet the loop does not stop there: the run completes normally
and issues a second page request. -/
theorem gen_request_stop_claim_counterexample :
    claimStops dealsCfg stalledParams stalledPage.data = true
    ∧ (gen_request dealsCfg "deals" [stalledPage, lastDealsPage] stalledParams {}).ok = true
    ∧ requestCount (gen_request dealsCfg "deals" [stalledPage, lastDealsPage] stalledParams {}) = 2 :=
  ⟨rfl, rfl, rfl⟩

/-- C7 (amended): the pagination loop stops issuing further requests
exactly when, after yielding a page's records, the configured "has more"
value is absent or falsy in the response, or when the value already
present in the outgoing request parameters under the more key equals the
response's more-key value (`stopsAfter`); the code compares the more-key
value, not the next offset value, so the two coincide only for contracts
whose more key is also an offset target (such as the v3 `after` cursor). -/
theorem gen_request_stop_condition (cfg : CursorSpec) (stream : String)
    (pg : Page) (rest : List Page) (params : Props) (st : TapState)
    (hok : (gen_request cfg stream (pg :: rest) params st).ok = true) :
    requestCount (gen_request cfg stream (pg :: rest) params st) = 1 ↔
      stopsAfter cfg (seedParams st stream params) pg.data = true := by
  by_cases harity : cfg.offset_keys.length ≠ cfg.offset_targets.length
  · rw [gen_request, if_pos harity] at hok
    simp at hok
  · rw [gen_request, if_neg harity] at hok ⊢
    match hpath : pget? pg.data cfg.path with
    | none =>
      rw [genLoop, hpath] at hok; simp at hok
    | some (.null) | some (.num _) | some (.bool _) | some (.str _) | some (.dict _) =>
      rw [genLoop, hpath] at hok; simp at hok
    | some (.list rows) =>
      rw [genLoop, hpath] at hok
      unfold requestCount
      rw [genLoop_requestCount_cons cfg stream pg rest (seedParams st stream params) st rows hpath]
      by_cases hstop : stopsAfter cfg (seedParams st stream params) pg.data
      · simp [hstop]
      · simp only [hstop, if_neg, Bool.false_eq_true, not_false_eq_true] at hok ⊢
        have hpos := genLoop_req_pos cfg stream rest
          (advance cfg stream pg.data
            (seedParams st stream params, clearOffset st stream)).1
          (advance cfg stream pg.data
            (seedParams st stream params, clearOffset st stream)).2 hok
        constructor
        · intro hcount
          omega
        · intro hfalse
          simp at hfalse

/-- C7 amended-claim witness: a run whose single page carries
`hasMore = false` issues exactly one request, and `stopsAfter` agrees. -/
theorem gen_request_stop_condition_witness :
    (gen_request dealsCfg "deals" [lastDealsPage] stalledParams {}).ok = true
    ∧ (requestCount (gen_request dealsCfg "deals" [lastDealsPage] stalledParams {}) = 1 ↔
        stopsAfter dealsCfg (seedParams {} "deals" stalledParams) lastDealsPage.data = true) :=
  ⟨rfl, gen_request_stop_condition dealsCfg "deals" lastDealsPage [] stalledParams {} rfl⟩

/-- C1 witness: a concrete two-page contacts run completes normally, so
the checkpoint protocol holds of its trace. -/
theorem gen_request_checkpoint_protocol_witness :
    (coreEvents (gen_request ⟨"contacts", "has-more", ["vid-offset"], ["vidOffset"]⟩
        "contacts" [⟨[("contacts", .list [.num 1]), ("has-more", .bool true), ("vid-offset", .num 123)]⟩,
          ⟨[("contacts", .list []), ("has-more", .bool false)]⟩]
        [("count", .num 100)] {}).events).head? =
      some (.request (seedParams {} "contacts" [("count", .num 100)]))
    ∧ List.Chain' (coreStep ⟨"contacts", "has-more", ["vid-offset"], ["vidOffset"]⟩ "contacts")
        (coreEvents (gen_request ⟨"contacts", "has-more", ["vid-offset"], ["vidOffset"]⟩
          "contacts" [⟨[("contacts", .list [.num 1]), ("has-more", .bool true), ("vid-offset", .num 123)]⟩,
            ⟨[("contacts", .list []), ("has-more", .bool false)]⟩]
          [("count", .num 100)] {}).events)
    ∧ (coreEvents (gen_request ⟨"contacts", "has-more", ["vid-offset"], ["vidOffset"]⟩
        "contacts" [⟨[("contacts", .list [.num 1]), ("has-more", .bool true), ("vid-offset", .num 123)]⟩,
          ⟨[("contacts", .list []), ("has-more", .bool false)]⟩]
        [("count", .num 100)] {}).events).getLast? =
      some (.persist (gen_request ⟨"contacts", "has-more", ["vid-offset"], ["vidOffset"]⟩
        "contacts" [⟨[("contacts", .list [.num 1]), ("has-more", .bool true), ("vid-offset", .num 123)]⟩,
          ⟨[("contacts", .list []), ("has-more", .bool false)]⟩]
        [("count", .num 100)] {}).finalState)
    ∧ getOffset (gen_request ⟨"contacts", "has-more", ["vid-offset"], ["vidOffset"]⟩
        "contacts" [⟨[("contacts", .list [.num 1]), ("has-more", .bool true), ("vid-offset", .num 123)]⟩,
          ⟨[("contacts", .list []), ("has-more", .bool false)]⟩]
        [("count", .num 100)] {}).finalState "contacts" = [] :=
  gen_request_checkpoint_protocol ⟨"contacts", "has-more", ["vid-offset"], ["vidOffset"]⟩
    "contacts" [⟨[("contacts", .list [.num 1]), ("has-more", .bool true), ("vid-offset", .num 123)]⟩,
      ⟨[("contacts", .list []), ("has-more", .bool false)]⟩]
    [("count", .num 100)] {} rfl

/-- C10: `gen_request` writes each page's offset values into the params
dict the caller passed, so after `sync_contacts` paginates (here: one
continuing page carrying `vid-offset = v`, then a final page) the shared
`default_contact_params` dict still holds the `"vidOffset"` cursor for
subsequent stream invocations; `sync_contacts_list_memberships` removes
it explicitly by popping `"vidOffset"` after its loop, leaving the shared
dict without the cursor. -/
theorem shared_contact_params_cursor_leak (v : JVal) :
    pget? (sync_contacts_sharedParams default_contact_params
        [contactsPage v, contactsLastPage] {}) "vidOffset" = some v
    ∧ pget? (sync_contacts_list_memberships_sharedParams default_contact_params
        [contactsPage v, contactsLastPage] {}) "vidOffset" = none :=
  ⟨rfl, rfl⟩

theorem requestGo_transient_steps (url : String) (params : Props) :
    ∀ (pre rest : List HResp) (tries : Nat) (sleeps : List Nat),
    (∀ r ∈ pre, classify r = .transient) → tries + pre.length < MAX_TRIES →
    requestGo url params (pre ++ rest) tries sleeps =
      requestGo url params rest (tries + pre.length)
        (sleeps ++ List.replicate pre.length 10) := by
  intro pre
  induction pre with
  | nil => intro rest tries sleeps _ _; simp
  | cons r pre ih =>
    intro rest tries sleeps htr hlt
    have hr : classify r = .transient := htr r (List.mem_cons_self r pre)
    have hne : ¬(tries + 1 = MAX_TRIES) := by
      simp [List.length_cons] at hlt
      omega
    rw [List.cons_append, requestGo, hr]
    simp only [if_neg hne]
    rw [ih rest (tries + 1) (sleeps ++ [10])
      (fun x hx => htr x (List.mem_cons_of_mem r hx)) (by simp at hlt ⊢; omega)]
    simp [List.replicate_succ, List.append_assoc]
    congr 1
    omega

/-- C2: the request executor retries on 429, 5xx and transport-level
errors with a fixed 10-second sleep between attempts, up to 5 attempts
total, then escalates to a permanent failure carrying the attempt count,
target url and params; any other 4xx response (except the 403
source-unavailable path, raised before `raise_for_status`) triggers zero
retries and fails permanently on the first attempt. -/
theorem request_retry_policy (url : String) (params : Props) :
    (∀ (pre rest : List HResp), (∀ r ∈ pre, classify r = .transient) →
      pre.length < 5 →
      request url params (pre ++ .status 200 :: rest) =
        .ok (pre.length + 1) (List.replicate pre.length 10))
    ∧ (∀ (r1 r2 r3 r4 r5 : HResp) (rest : List HResp),
      classify r1 = .transient → classify r2 = .transient →
      classify r3 = .transient → classify r4 = .transient →
      classify r5 = .transient →
      request url params (r1 :: r2 :: r3 :: r4 :: r5 :: rest) =
        .giveUp 5 url params (List.replicate 4 10))
    ∧ (∀ (code : Nat) (rest : List HResp), 400 ≤ code → code < 500 →
      code ≠ 429 → code ≠ 403 →
      request url params (.status code :: rest) = .giveUp 1 url params []) := by
  refine ⟨?_, ?_, ?_⟩
  · intro pre rest htr hlen
    rw [request, requestGo_transient_steps url params pre (.status 200 :: rest) 0 [] htr
      (by simpa [MAX_TRIES] using hlen)]
    rw [requestGo]
    simp [classify, giveup]
  · intro r1 r2 r3 r4 r5 rest h1 h2 h3 h4 h5
    have hsteps := requestGo_transient_steps url params [r1, r2, r3, r4]
      (r5 :: rest) 0 [] (by
        intro r hr
        simp at hr
        rcases hr with h | h | h | h <;> subst h <;> assumption)
      (by simp [MAX_TRIES])
    rw [request]
    rw [show ((r1 :: r2 :: r3 :: r4 :: r5 :: rest : List HResp) =
      [r1, r2, r3, r4] ++ r5 :: rest) from rfl, hsteps]
    rw [requestGo, h5]
    simp [MAX_TRIES]
  · intro code rest h400 h500 h429 h403
    rw [request, requestGo]
    have hc : classify (.status code) = .permanent := by
      simp [classify, giveup, h403, h400, h500, h429]
      omega
    rw [hc]

/-- C2 witness: four 429s then a 200 succeed on the fifth attempt with
four 10-second sleeps; five 429s escalate with the attempt count, url and
params; a single 404 fails permanently with zero retries and no sleeps. -/
theorem request_retry_policy_witness :
    request "u" [] [.status 429, .status 429, .status 429, .status 429, .status 200] =
      .ok 5 (List.replicate 4 10)
    ∧ request "u" [] [.status 429, .status 429, .status 429, .status 429, .status 429] =
      .giveUp 5 "u" [] (List.replicate 4 10)
    ∧ request "u" [] [.status 404] = .giveUp 1 "u" [] [] :=
  ⟨by
    have h := (request_retry_policy "u" []).1
      [.status 429, .status 429, .status 429, .status 429] [] (by decide) (by decide)
    simpa using h,
   (request_retry_policy "u" []).2.1 (.status 429) (.status 429) (.status 429)
     (.status 429) (.status 429) [] (by decide) (by decide) (by decide) (by decide)
     (by decide),
   (request_retry_policy "u" []).2.2 404 [] (by decide) (by decide) (by decide)
     (by decide)⟩

/-- C8: an HTTP 403 resolves to the distinguished source-unavailable
error on the first attempt, with no retries and no backoff sleeps; the
orchestrator alone catches that condition — it logs the message with the
access token redacted and continues with the remaining streams — while
any other failure aborts the run, leaving the later streams unprocessed. -/
theorem source_unavailable_handling (url : String) (params : Props) (token : String) :
    (∀ rest : List HResp,
      request url params (.status 403 :: rest) = .sourceUnavailable 1 [])
    ∧ (∀ (id msg : String) (rest : List (String × SyncOutcome)),
      do_sync token ((id, .sourceUnavailable msg) :: rest) =
        { processed := id :: (do_sync token rest).processed,
          logged := redact token msg :: (do_sync token rest).logged,
          completed := (do_sync token rest).completed,
          error := (do_sync token rest).error })
    ∧ (∀ (id msg : String) (rest : List (String × SyncOutcome)),
      do_sync token ((id, .failed msg) :: rest) =
        { processed := [id], logged := [], completed := false, error := some msg }) := by
  refine ⟨?_, ?_, ?_⟩
  · intro rest
    rw [request, requestGo]
    rfl
  · intro id msg rest
    rfl
  · intro id msg rest
    rfl

theorem foldMaxOpt_le (times : List (Option Nat)) :
    ∀ start : Nat, start ≤ foldMaxOpt start times := by
  induction times with
  | nil => intro start; simp [foldMaxOpt]
  | cons t? tl ih =>
    intro start
    match t? with
    | none => exact ih start
    | some t =>
      by_cases h : start ≤ t
      · have heq : foldMaxOpt start (some t :: tl) = foldMaxOpt t tl := by
          simp [foldMaxOpt, h]
        rw [heq]
        exact le_trans h (ih t)
      · have heq : foldMaxOpt start (some t :: tl) = foldMaxOpt start tl := by
          simp [foldMaxOpt, h]
        rw [heq]
        exact ih start

theorem engagementsMax_eq_foldMax (times : List Nat) :
    ∀ m : Nat, (∀ start : Nat, start ≤ m →
      times.foldl (fun m t => if start ≤ t then (if m ≤ t then t else m) else m) m =
        times.foldl (fun m t => if m ≤ t then t else m) m) := by
  induction times with
  | nil => intro m start _; rfl
  | cons t tl ih =>
    intro m start hsm
    simp only [List.foldl_cons]
    by_cases hst : start ≤ t
    · by_cases hmt : m ≤ t
      · simp only [if_pos hst, if_pos hmt]
        exact ih t start (le_trans hsm hmt)
      · simp only [if_pos hst, if_neg hmt]
        exact ih m start hsm
    · have hmt : ¬ m ≤ t := fun h => hst (le_trans hsm h)
      simp only [if_neg hst, if_neg hmt]
      exact ih m start hsm

/-- C3: for both full-table streams using the race-safe clamp (companies
and engagements): `current_sync_start` is the persisted value left by a
crashed prior attempt when one exists, else `now()`; it is recorded in
the first checkpoint persisted, before any scanning; at successful
completion the committed bookmark is `min` of the running maximum of
bookmark values seen during the scan (seeded with the run's start
threshold) and `current_sync_start`, so it never advances past the
instant the scan began; and `current_sync_start` is reset to null. -/
theorem race_safe_clamp (now startDate : Nat) (st : BookmarkState)
    (ctimes : List (Option Nat)) (etimes : List Nat) :
    ((sync_companies_clamp now startDate st ctimes).persists.head? =
      some { st with currentSyncStart := some (st.currentSyncStart.getD now) })
    ∧ (sync_companies_clamp now startDate st ctimes).final.bookmark =
      some (min (foldMaxOpt (get_start st startDate) ctimes) (st.currentSyncStart.getD now))
    ∧ (sync_companies_clamp now startDate st ctimes).final.currentSyncStart = none
    ∧ (sync_companies_clamp now startDate st ctimes).final.bookmark.getD 0 ≤
      st.currentSyncStart.getD now
    ∧ ((sync_engagements_clamp now startDate st etimes).persists.head? =
      some { st with currentSyncStart := some (st.currentSyncStart.getD now) })
    ∧ (sync_engagements_clamp now startDate st etimes).final.bookmark =
      some (min (foldMax (get_start st startDate) etimes) (st.currentSyncStart.getD now))
    ∧ (sync_engagements_clamp now startDate st etimes).final.currentSyncStart = none
    ∧ (sync_engagements_clamp now startDate st etimes).final.bookmark.getD 0 ≤
      st.currentSyncStart.getD now := by
  refine ⟨rfl, rfl, rfl, ?_, rfl, ?_, rfl, ?_⟩
  · simp [sync_companies_clamp]
  · show some (min (engagementsMax (get_start st startDate) etimes) _) = _
    rw [engagementsMax, engagementsMax_eq_foldMax etimes (get_start st startDate)
      (get_start st startDate) (le_refl _)]
    rfl
  · show (some (min (engagementsMax (get_start st startDate) etimes)
      (st.currentSyncStart.getD now))).getD 0 ≤ _
    simp

/-- C5: for the non-clamped incremental policy (`sync_deals` with
`get_start`): the committed bookmark is the running maximum of modified
times seeded with `get_start`, hence at least the bookmark the run
started from; chaining two successful runs, the second run's committed
bookmark is at least the first's, so watermarks are monotonically
non-decreasing across successful runs. -/
theorem deals_bookmark_monotone (startDate : Nat) (st : BookmarkState)
    (times : List (Option Nat)) :
    (sync_deals_run startDate st times).bookmark =
      some (foldMaxOpt (get_start st startDate) times)
    ∧ get_start st startDate ≤ (sync_deals_run startDate st times).bookmark.getD 0
    ∧ (∀ b, st.bookmark = some b → b ≤ (sync_deals_run startDate st times).bookmark.getD 0)
    ∧ (∀ (startDate₂ : Nat) (times₂ : List (Option Nat)),
      (sync_deals_run startDate st times).bookmark.getD 0 ≤
        (sync_deals_run startDate₂ (sync_deals_run startDate st times) times₂).bookmark.getD 0) := by
  refine ⟨rfl, ?_, ?_, ?_⟩
  · show get_start st startDate ≤ (some (foldMaxOpt (get_start st startDate) times)).getD 0
    simpa using foldMaxOpt_le times (get_start st startDate)
  · intro b hb
    show b ≤ (some (foldMaxOpt (get_start st startDate) times)).getD 0
    simp only [Option.getD_some]
    calc b = get_start st startDate := by rw [get_start, hb]
      _ ≤ foldMaxOpt (get_start st startDate) times := foldMaxOpt_le times _
  · intro startDate₂ times₂
    show (some (foldMaxOpt (get_start st startDate) times)).getD 0 ≤
      (some (foldMaxOpt (get_start (sync_deals_run startDate st times) startDate₂) times₂)).getD 0
    simp only [Option.getD_some]
    have h2 : get_start (sync_deals_run startDate st times) startDate₂ =
        foldMaxOpt (get_start st startDate) times := rfl
    rw [h2]
    exact foldMaxOpt_le times₂ _

/-- C5 witness: a concrete two-run chain on deals. -/
theorem deals_bookmark_monotone_witness :
    (sync_deals_run 7 { bookmark := some 12, currentSyncStart := none }
        [some 9, none, some 20]).bookmark =
      some (foldMaxOpt (get_start { bookmark := some 12, currentSyncStart := none } 7)
        [some 9, none, some 20])
    ∧ (12 : Nat) ≤ (sync_deals_run 7 { bookmark := some 12, currentSyncStart := none }
        [some 9, none, some 20]).bookmark.getD 0 :=
  ⟨(deals_bookmark_monotone 7 { bookmark := some 12, currentSyncStart := none }
      [some 9, none, some 20]).1,
   (deals_bookmark_monotone 7 { bookmark := some 12, currentSyncStart := none }
      [some 9, none, some 20]).2.2.1 12 rfl⟩

theorem ceil_div_step (d W : Nat) (hW : 0 < W) (hd : 0 < d) :
    (d + W - 1) / W = (d - W + W - 1) / W + 1 := by
  have h1 : d + W - 1 = (d - 1) + W := by omega
  rw [h1, Nat.add_div_right _ hW]
  rcases le_or_lt d W with hle | hlt
  · have h2 : d - W = 0 := by omega
    rw [h2]
    have h3 : (d - 1) / W = 0 := Nat.div_eq_of_lt (by omega)
    have h4 : (0 + W - 1) / W = 0 := Nat.div_eq_of_lt (by omega)
    rw [h3, h4]
  · have h2 : d - W + W - 1 = (d - W - 1) + W := by omega
    rw [h2, Nat.add_div_right _ hW]
    have h3 : d - 1 = (d - W - 1) + W := by omega
    rw [h3, Nat.add_div_right _ hW]

theorem chunkLoop_char (W now : Nat) (hW : 0 < W) : ∀ (start : Nat),
    chunkLoop W now start =
      (List.range ((now - start + (W - 1)) / W)).map
        (fun k => (start + k * W, start + k * W + W, start + k * W))
  | start => by
    rw [chunkLoop]
    by_cases h : start < now
    · rw [dif_pos ⟨h, hW⟩]
      rw [chunkLoop_char W now hW (start + W)]
      have hn : (now - start + (W - 1)) / W = (now - (start + W) + (W - 1)) / W + 1 := by
        have hstep := ceil_div_step (now - start) W hW (by omega)
        have e0 : now - (start + W) = now - start - W := by omega
        have e1 : now - start + (W - 1) = now - start + W - 1 := by omega
        have e2 : now - start - W + (W - 1) = now - start - W + W - 1 := by omega
        rw [e0, e1, e2]
        exact hstep
      rw [hn, List.range_succ_eq_map, List.map_cons, List.map_map]
      have hhead : start + 0 * W = start := by omega
      rw [List.cons_eq_cons]
      refine ⟨by rw [hhead], ?_⟩
      refine List.map_congr_left ?_
      intro k _
      simp only [Function.comp_apply, Nat.succ_eq_add_one]
      have harith : start + (k + 1) * W = start + W + k * W := by ring
      rw [harith]
    · rw [dif_neg (fun hc => h hc.1)]
      have hz : (now - start + (W - 1)) / W = 0 := Nat.div_eq_of_lt (by omega)
      rw [hz, List.range_zero, List.map_nil]
termination_by start => now - start
decreasing_by
  simp_wf
  omega

/-- C4: for the chunked scanner with positive window size `W` over
`[bookmark, now)` where `now` is the instant captured once at scan start
(a fixed parameter of the whole run, never re-evaluated): the loop
processes exactly `ceil((now - bookmark) / W)` windows; window `k` spans
`[bookmark + k*W, bookmark + (k+1)*W)` — fixed-size, non-overlapping,
consecutive — and the bookmark committed after window `k` closes equals
that window's start `bookmark + k*W` (not its end and not `now`); and a
run resumed from a committed bookmark `c` (with `c < now`) starts by
re-scanning the window that begins at `c` rather than skipping past it. -/
theorem sync_entity_chunked_windows (W b now : Nat) (hW : 0 < W) :
    (chunkLoop W now b).length = (now - b + (W - 1)) / W
    ∧ chunkLoop W now b =
      (List.range ((now - b + (W - 1)) / W)).map
        (fun k => (b + k * W, b + k * W + W, b + k * W))
    ∧ (∀ c, c < now → (chunkLoop W now c).head? = some (c, c + W, c)) := by
  refine ⟨?_, chunkLoop_char W now hW b, ?_⟩
  · rw [chunkLoop_char W now hW b]
    simp
  · intro c hc
    rw [chunkLoop, dif_pos ⟨hc, hW⟩]
    rfl

/-- C4 witness: window size 2 over the span from bookmark 1 to `now` 6
yields three windows. -/
theorem sync_entity_chunked_windows_witness :
    (chunkLoop 2 6 1).length = (6 - 1 + (2 - 1)) / 2
    ∧ chunkLoop 2 6 1 =
      (List.range ((6 - 1 + (2 - 1)) / 2)).map
        (fun k => (1 + k * 2, 1 + k * 2 + 2, 1 + k * 2))
    ∧ (∀ c, c < 6 → (chunkLoop 2 6 c).head? = some (c, c + 2, c)) :=
  sync_entity_chunked_windows 2 1 6 (by decide)

theorem merge_fold_no_match (r : V1Deal) :
    ∀ v3 : List V3Deal, (∀ v3r ∈ v3, (toString r.dealId == v3r.id) = false) →
    v3.foldl
      (fun acc v3r =>
        if toString r.dealId == v3r.id then
          { acc with properties := pupdate acc.properties v3r.properties }
        else acc)
      r = r := by
  intro v3
  induction v3 with
  | nil => intro _; rfl
  | cons v3r tl ih =>
    intro hno
    have h1 : (toString r.dealId == v3r.id) = false := hno v3r (List.mem_cons_self v3r tl)
    simp only [List.foldl_cons, h1, Bool.false_eq_true, if_false]
    exact ih (fun x hx => hno x (List.mem_cons_of_mem v3r hx))

/-- C6: in the deals cross-version merge, every field surviving
`process_v3_deals_records` contains one of the three configured prefixes
and its value is the `{"value": original}` envelope of the source value;
a legacy record matching no v3 id (after string coercion of its numeric
id) passes through `merge_responses` unchanged; and on the spec's example
— a legacy page with IDs [10, 11] and a v3 response with IDs ["10"] — the
merged output holds record 10 with the filtered, reshaped v3 fields
overlaid into its property mapping and record 11 unchanged. -/
theorem deals_merge_correct :
    (∀ (v3 : List V3Deal) (r' : V3Deal), r' ∈ process_v3_deals_records v3 →
      ∀ kv ∈ r'.properties,
        V3_PREFIXES.any (fun pf => strContains kv.1 pf) = true
        ∧ ∃ orig, kv.2 = JVal.dict [("value", orig)])
    ∧ (∀ (v1 : List V1Deal) (v3 : List V3Deal) (i : Nat) (r : V1Deal),
      v1.get? i = some r → (∀ v3r ∈ v3, (toString r.dealId == v3r.id) = false) →
      (merge_responses v1 v3).get? i = some r)
    ∧ merge_responses [v1DealTen, v1DealEleven] (process_v3_deals_records [v3DealTen]) =
      [⟨10, [("dealname", .str "A"), ("amount", .str "1"),
             ("hs_date_entered_appointmentscheduled", .dict [("value", .str "T1")])]⟩,
       v1DealEleven] := by
  refine ⟨?_, ?_, rfl⟩
  · intro v3 r' hr' kv hkv
    rw [process_v3_deals_records] at hr'
    obtain ⟨r, _, hmap⟩ := List.mem_map.mp hr'
    subst hmap
    simp only at hkv
    obtain ⟨kv0, hkv0, hwrap⟩ := List.mem_map.mp hkv
    have hfilter := List.of_mem_filter hkv0
    subst hwrap
    exact ⟨hfilter, ⟨kv0.2, rfl⟩⟩
  · intro v1 v3 i r hget hno
    rw [merge_responses, List.get?_map, hget]
    simp only [Option.map_some']
    rw [merge_fold_no_match r v3 hno]

/-- C6 witness: record 11 matches no v3 id, so it passes through the
example merge unchanged at position 1. -/
theorem deals_merge_correct_witness :
    (merge_responses [v1DealTen, v1DealEleven]
      (process_v3_deals_records [v3DealTen])).get? 1 = some v1DealEleven :=
  (deals_merge_correct).2.1 [v1DealTen, v1DealEleven]
    (process_v3_deals_records [v3DealTen]) 1 v1DealEleven rfl
    (by
      intro v3r hv3r
      simp [process_v3_deals_records, v3DealTen] at hv3r
      rw [hv3r]
      rfl)

end TapHubspot
